import Mathlib

/-!
Verification of the image-to-script conversion pipeline of
`image_to_python_sketch.py`: the two samplers (`image_to_points_sketch`,
`image_to_points_color`), the two code emitters
(`generate_python_code_sketch`, `generate_python_code_color`) and the
CLI size selection in `main`.

Images are embedded as a width, a height and a total pixel function;
the external decoder (Pillow) is modelled where the pipeline calls it:
`Img.thumbnail` follows `PIL.Image.thumbnail` (aspect-preserving
shrink, never upscaling, with the rounding of the longer/shorter side
done as in the library, over exact rationals), and `find_edges`
follows `PIL.ImageFilter.FIND_EDGES` (3x3 kernel -1 everywhere, 8 in
the centre, scale 1, offset 0, result clamped to 0..255; the
one-pixel border of the output is copied from the input, and an image
smaller than the kernel is returned unchanged).
-/

namespace ImageConverter

/-- A decoded pixel grid: width, height, and a per-pixel value.
`pixel x y` is the value at column `x`, row `y` (origin top-left);
values outside `[0, width) x [0, height)` are irrelevant to the
pipeline. -/
structure Img (α : Type) where
  width : ℕ
  height : ℕ
  pixel : ℕ → ℕ → α

/-- Modelled from the spec: the external resize capability
("resize so that the longer side does not exceed maxSize, shorter side
scaled proportionally"), with the rounding of
`PIL.Image.thumbnail`: the new width, when the height is the longer
side, is `maxSize * W / H` rounded to the nearer integer (ties to the
floor), clamped to at least 1. -/
def thumbWidth (W H maxSize : ℕ) : ℕ :=
  let v : ℚ := (maxSize * W : ℚ) / H
  let n : ℤ := if v - ⌊v⌋ ≤ (⌈v⌉ : ℚ) - v then ⌊v⌋ else ⌈v⌉
  max 1 n.toNat

/-- Modelled from the spec: as `thumbWidth`, for the new height when
the width is the longer side.  `PIL.Image.thumbnail` picks between
floor and ceiling of `maxSize * H / W` by which makes the aspect
ratio `maxSize / n` nearer to `W / H` (a candidate of 0 counting as
distance 0, then clamped to 1); ties go to the floor. -/
def thumbHeight (W H maxSize : ℕ) : ℕ :=
  let v : ℚ := (maxSize * H : ℚ) / W
  let key : ℤ → ℚ := fun n => if n = 0 then 0 else |(W : ℚ) / H - maxSize / n|
  let n : ℤ := if key ⌊v⌋ ≤ key ⌈v⌉ then ⌊v⌋ else ⌈v⌉
  max 1 n.toNat

/-- Modelled from the spec: the dimensions produced by the external
aspect-preserving resize with both bounds equal to `maxSize`.  An
image already within bounds is left unchanged. -/
def thumbnailSize (W H maxSize : ℕ) : ℕ × ℕ :=
  if W ≤ maxSize ∧ H ≤ maxSize then (W, H)
  else if W ≤ H then (thumbWidth W H maxSize, maxSize)
  else (maxSize, thumbHeight W H maxSize)

/-- Modelled from the spec: the external resize, `img.thumbnail((max_size,
max_size))`.  Dimensions follow `thumbnailSize`; the pixel content of a
downsized image is modelled by nearest sampling (the library kernel is
out of scope; every claim below depends on the content only through
"resizing a uniform image yields a uniform image", which any
resampling kernel satisfies). -/
def Img.thumbnail {α : Type} (img : Img α) (maxSize : ℕ) : Img α :=
  if img.width ≤ maxSize ∧ img.height ≤ maxSize then img
  else
    { width := (thumbnailSize img.width img.height maxSize).1
      height := (thumbnailSize img.width img.height maxSize).2
      pixel := fun x y =>
        img.pixel (x * img.width / (thumbnailSize img.width img.height maxSize).1)
          (y * img.height / (thumbnailSize img.width img.height maxSize).2) }

/-- Clamp a signed convolution result to the 0..255 byte range, as the
library does for 8-bit images. -/
def clamp255 (n : ℤ) : ℕ :=
  if n < 0 then 0 else if 255 < n then 255 else n.toNat

/-- Modelled from the spec: the external "edge-highlighting filter"
capability (`img.filter(ImageFilter.FIND_EDGES)`), made concrete with
the library's documented behaviour: the 3x3 kernel
`(-1,-1,-1,-1,8,-1,-1,-1,-1)` with scale 1 and offset 0 applied to
every interior pixel, clamped to 0..255; border pixels (and every
pixel of an image narrower or shorter than 3) are copied unchanged
from the input. -/
def find_edges (g : Img ℕ) : Img ℕ :=
  { width := g.width
    height := g.height
    pixel := fun x y =>
      if 1 ≤ x ∧ x + 1 < g.width ∧ 1 ≤ y ∧ y + 1 < g.height then
        clamp255 (8 * (g.pixel x y : ℤ) -
          ((g.pixel (x - 1) (y - 1) : ℤ) + g.pixel x (y - 1) + g.pixel (x + 1) (y - 1) +
            g.pixel (x - 1) y + g.pixel (x + 1) y +
            g.pixel (x - 1) (y + 1) + g.pixel x (y + 1) + g.pixel (x + 1) (y + 1)))
      else g.pixel x y }

/-- Sum of all pixel values of a grayscale grid (`arr.sum()`). -/
def pixSum (g : Img ℕ) : ℕ :=
  ∑ y ∈ Finset.range g.height, ∑ x ∈ Finset.range g.width, g.pixel x y

/-- `threshold = float(arr.mean())`: the arithmetic mean of all pixel
values, as an exact rational.  (The pixel values are small naturals
and their count is far below `2^50`, so the float64 mean computed by
numpy decides `value > mean` exactly as the rational mean does.) -/
def threshold (g : Img ℕ) : ℚ :=
  (pixSum g : ℚ) / ((g.width : ℚ) * g.height)

/-- `ys, xs = np.where(arr > threshold); points = list(zip(xs, ys))`:
row-major scan of the grid keeping the coordinates whose value is
strictly greater than the mean.  The comparison `value > mean` is
embedded multiplied out over ℕ (`value * count > sum`), which is
exactly equivalent (the mean of an empty grid compares false either
way, as numpy's nan does) and keeps the scan computable by the
kernel; `pixel_threshold_iff` below relates it to `threshold`. -/
def sketchScan (g : Img ℕ) : List (ℕ × ℕ) :=
  (List.range g.height).flatMap fun y =>
    ((List.range g.width).filter fun x =>
      decide (pixSum g < g.pixel x y * (g.width * g.height))).map fun x => (x, y)

/-- `image_to_points_sketch`: resize the (already grayscale) image,
apply the edge filter, and return the resized dimensions together
with the coordinates of the pixels strictly above the mean filtered
intensity. -/
def image_to_points_sketch (img : Img ℕ) (max_size : ℕ) : (ℕ × ℕ) × List (ℕ × ℕ) :=
  let resized := img.thumbnail max_size
  let edges := find_edges resized
  ((resized.width, resized.height), sketchScan edges)

/-- The nested loop of `image_to_points_color`: one `(x, y, (r, g, b))`
entry per pixel, `y` outer, `x` inner. -/
def colorScan (g : Img (ℕ × ℕ × ℕ)) : List (ℕ × ℕ × (ℕ × ℕ × ℕ)) :=
  (List.range g.height).flatMap fun y =>
    (List.range g.width).map fun x => (x, y, g.pixel x y)

/-- `image_to_points_color`: resize the (already RGB) image and return
the resized dimensions together with the dense per-pixel point list. -/
def image_to_points_color (img : Img (ℕ × ℕ × ℕ)) (max_size : ℕ) :
    (ℕ × ℕ) × List (ℕ × ℕ × (ℕ × ℕ × ℕ)) :=
  let resized := img.thumbnail max_size
  ((resized.width, resized.height), colorScan resized)

/-- A uniform grayscale image: every pixel has value `c`. -/
def uniformImg (w h c : ℕ) : Img ℕ :=
  ⟨w, h, fun _ _ => c⟩

/-- The 2x2 grayscale image `[0, 0; 0, 255]` of the spec's first
end-to-end scenario (used as a concrete input below). -/
def demoImg : Img ℕ :=
  ⟨2, 2, fun x y => if x = 1 ∧ y = 1 then 255 else 0⟩

/-- A 3x3 solid-red image (second end-to-end scenario). -/
def solidRed : Img (ℕ × ℕ × ℕ) :=
  ⟨3, 3, fun _ _ => (255, 0, 0)⟩

/-- A numeric value as Python passes it at run time: the annotated
type of the emitters is `int`, but nothing stops a caller handing a
non-finite float to the f-string, which formats it as `nan`, `inf` or
`-inf` just as `str` does. -/
inductive PyNum : Type
  | int (n : ℤ)
  | nan
  | inf
  | ninf

/-- `str`/f-string formatting of a run-time numeric value. -/
def PyNum.str : PyNum → String
  | .int n => toString n
  | .nan => "nan"
  | .inf => "inf"
  | .ninf => "-inf"

/-- Python `repr` of a list: comma-separated elements in brackets. -/
def pyReprList {α : Type} (f : α → String) (l : List α) : String :=
  "[" ++ String.intercalate ", " (l.map f) ++ "]"

/-- Python `repr` of a sketch point `(x, y)`. -/
def reprSketchPoint (p : ℕ × ℕ) : String :=
  "(" ++ toString p.1 ++ ", " ++ toString p.2 ++ ")"

/-- Python `repr` of a color point `(x, y, (r, g, b))`. -/
def reprColorPoint (p : ℕ × ℕ × (ℕ × ℕ × ℕ)) : String :=
  "(" ++ toString p.1 ++ ", " ++ toString p.2.1 ++ ", (" ++ toString p.2.2.1 ++ ", " ++
    toString p.2.2.2.1 ++ ", " ++ toString p.2.2.2.2 ++ "))"

/-- The fixed part of the sketch template after the `POINTS` literal. -/
def sketchTail : String :=
  "\n\n\ndef main():\n    xs = [p[0] for p in POINTS]\n    ys = [HEIGHT - p[1] for p in POINTS]  # flip Y so image isn\x27t upside-down\n\n    plt.figure(figsize=(WIDTH / 80, HEIGHT / 80), facecolor=\"white\")\n    plt.scatter(xs, ys, s=1, c=\"black\", marker=\".\", linewidths=0)\n    plt.axis(\"off\")\n    plt.gca().set_aspect(\"equal\", adjustable=\"box\")\n    plt.tight_layout()\n    plt.show()\n\n\nif __name__ == \"__main__\":\n    main()\n"

/-- The fixed part of the color template after the `POINTS` literal. -/
def colorTail : String :=
  "\n\n\ndef main():\n    xs = [p[0] for p in POINTS]\n    ys = [HEIGHT - p[1] for p in POINTS]  # flip Y so image isn\x27t upside-down\n    colors = [\n        (rgb[0] / 255.0, rgb[1] / 255.0, rgb[2] / 255.0)\n        for (_, _, rgb) in POINTS\n    ]\n\n    plt.figure(figsize=(WIDTH / 50, HEIGHT / 50), facecolor=\"white\")\n    plt.scatter(xs, ys, s=8, c=colors, marker=\"s\", linewidths=0)\n    plt.axis(\"off\")\n    plt.gca().set_aspect(\"equal\", adjustable=\"box\")\n    plt.tight_layout()\n    plt.show()\n\n\nif __name__ == \"__main__\":\n    main()\n"

/-- `generate_python_code_sketch`: the f-string template with `width`,
`height` and `repr(points)` interpolated.  `textwrap.dedent` is the
identity here (no line of the template has leading whitespace), so it
is not modelled separately. -/
def generate_python_code_sketch (width height : PyNum) (points : List (ℕ × ℕ)) : String :=
  "import matplotlib.pyplot as plt\n\nWIDTH, HEIGHT = " ++ width.str ++ ", " ++ height.str ++
    "\nPOINTS = " ++ pyReprList reprSketchPoint points ++ sketchTail

/-- `generate_python_code_color`: the color f-string template with
`width`, `height` and `repr(points)` interpolated.  `textwrap.dedent`
is the identity here as well. -/
def generate_python_code_color (width height : PyNum)
    (points : List (ℕ × ℕ × (ℕ × ℕ × ℕ))) : String :=
  "import matplotlib.pyplot as plt\n\nWIDTH, HEIGHT = " ++ width.str ++ ", " ++ height.str ++
    "\n# Each point is (x, y, (r, g, b))\nPOINTS = " ++ pyReprList reprColorPoint points ++
    colorTail

/-- The two CLI sampling modes. -/
inductive Mode : Type
  | sketch
  | color

/-- The CLI default of the `--max-size` argument. -/
def default_max_size : ℕ := 160

/-- The size `main` hands to the sampler: sketch mode passes
`args.max_size` through; color mode runs
`size = args.max_size if args.max_size != 160 else 80`. -/
def effective_max_size : Mode → ℕ → ℕ
  | Mode.sketch, s => s
  | Mode.color, s => if s ≠ 160 then s else 80

/-! ## Helper lemmas -/

/-- The multiplied-out scan comparison agrees with `value > mean` on a
non-degenerate grid. -/
lemma pixel_threshold_iff (g : Img ℕ) (x y : ℕ) (hw : 0 < g.width) (hh : 0 < g.height) :
    pixSum g < g.pixel x y * (g.width * g.height) ↔ threshold g < (g.pixel x y : ℚ) := by
  have hwh : (0 : ℚ) < (g.width : ℚ) * g.height := by
    have := mul_pos hw hh
    exact_mod_cast this
  rw [threshold, div_lt_iff₀ hwh]
  exact_mod_cast Iff.rfl

/-- Membership in the sketch scan. -/
lemma mem_sketchScan {g : Img ℕ} {a b : ℕ} :
    (a, b) ∈ sketchScan g ↔
      b < g.height ∧ a < g.width ∧ pixSum g < g.pixel a b * (g.width * g.height) := by
  simp only [sketchScan, List.mem_flatMap, List.mem_map, List.mem_filter, List.mem_range,
    decide_eq_true_eq, Prod.mk.injEq]
  constructor
  · rintro ⟨y, hy, x, ⟨hx, hpred⟩, rfl, rfl⟩
    exact ⟨hy, hx, hpred⟩
  · rintro ⟨hb, ha, hpred⟩
    exact ⟨b, hb, a, ⟨ha, hpred⟩, rfl, rfl⟩

/-- The sketch scan is strictly increasing for the row-major order:
later points have a larger `y`, or the same `y` and a larger `x`. -/
lemma sketchScan_pairwise (g : Img ℕ) :
    (sketchScan g).Pairwise fun p q => p.2 < q.2 ∨ (p.2 = q.2 ∧ p.1 < q.1) := by
  rw [sketchScan, List.pairwise_flatMap]
  refine ⟨fun y _ => ?_, ?_⟩
  · rw [List.pairwise_map]
    exact ((List.pairwise_lt_range _).filter _).imp fun h => Or.inr ⟨rfl, h⟩
  · refine (List.pairwise_lt_range _).imp ?_
    rintro y₁ y₂ h p hp q hq
    obtain ⟨x₁, -, rfl⟩ := List.mem_map.1 hp
    obtain ⟨x₂, -, rfl⟩ := List.mem_map.1 hq
    exact Or.inl h

/-- The row-major order relation is irreflexive, so a pairwise scan
has no duplicates. -/
lemma sketchScan_nodup (g : Img ℕ) : (sketchScan g).Nodup :=
  (sketchScan_pairwise g).imp fun h heq => by
    rw [heq] at h
    rcases h with h | ⟨-, h⟩ <;> exact lt_irrefl _ h

/-- The sketch scan as a set is the set of in-range coordinates whose
filtered value exceeds the mean. -/
lemma sketchScan_toFinset (g : Img ℕ) :
    (sketchScan g).toFinset =
      (Finset.range g.width ×ˢ Finset.range g.height).filter fun p =>
        threshold g < (g.pixel p.1 p.2 : ℚ) := by
  ext ⟨a, b⟩
  simp only [List.mem_toFinset, mem_sketchScan, Finset.mem_filter, Finset.mem_product,
    Finset.mem_range]
  constructor
  · rintro ⟨hb, ha, hpred⟩
    exact ⟨⟨ha, hb⟩, (pixel_threshold_iff g a b (Nat.zero_lt_of_lt ha)
      (Nat.zero_lt_of_lt hb)).1 hpred⟩
  · rintro ⟨⟨ha, hb⟩, hpred⟩
    exact ⟨hb, ha, (pixel_threshold_iff g a b (Nat.zero_lt_of_lt ha)
      (Nat.zero_lt_of_lt hb)).2 hpred⟩

/-- Membership in the color scan. -/
lemma mem_colorScan {g : Img (ℕ × ℕ × ℕ)} {a b : ℕ} {c : ℕ × ℕ × ℕ} :
    (a, b, c) ∈ colorScan g ↔ b < g.height ∧ a < g.width ∧ c = g.pixel a b := by
  simp only [colorScan, List.mem_flatMap, List.mem_map, List.mem_range, Prod.mk.injEq]
  constructor
  · rintro ⟨y, hy, x, hx, rfl, rfl, rfl⟩
    exact ⟨hy, hx, rfl⟩
  · rintro ⟨hb, ha, rfl⟩
    exact ⟨b, hb, a, ha, rfl, rfl, rfl⟩

/-- The color scan is strictly increasing for the row-major order on
its `(x, y)` coordinates. -/
lemma colorScan_pairwise (g : Img (ℕ × ℕ × ℕ)) :
    (colorScan g).Pairwise fun p q => p.2.1 < q.2.1 ∨ (p.2.1 = q.2.1 ∧ p.1 < q.1) := by
  rw [colorScan, List.pairwise_flatMap]
  refine ⟨fun y _ => ?_, ?_⟩
  · rw [List.pairwise_map]
    exact (List.pairwise_lt_range _).imp fun h => Or.inr ⟨rfl, h⟩
  · refine (List.pairwise_lt_range _).imp ?_
    rintro y₁ y₂ h p hp q hq
    obtain ⟨x₁, -, rfl⟩ := List.mem_map.1 hp
    obtain ⟨x₂, -, rfl⟩ := List.mem_map.1 hq
    exact Or.inl h

/-- The color scan enumerates exactly `width * height` entries. -/
lemma colorScan_length (g : Img (ℕ × ℕ × ℕ)) :
    (colorScan g).length = g.width * g.height := by
  rw [colorScan, List.length_flatMap]
  simp only [Function.comp_def, List.length_map, List.length_range]
  rw [List.map_const', List.sum_replicate, List.length_range, smul_eq_mul, Nat.mul_comm]

/-! ## Sketch-mode claims -/

/-- C1: for every image and `maxSize ≥ 1`, a coordinate `(x, y)` of
the resized image appears in the list returned by
`image_to_points_sketch` iff the edge-filtered intensity at `(x, y)`
is strictly greater than the arithmetic mean of all edge-filtered
intensities; the number of points equals the count of
filtered-intensity values strictly above that mean, and is at most
`width * height`. -/
theorem sketch_matches_mean_threshold (img : Img ℕ) (max_size : ℕ) (hm : 1 ≤ max_size) :
    (∀ x y : ℕ,
        x < (image_to_points_sketch img max_size).1.1 →
        y < (image_to_points_sketch img max_size).1.2 →
        ((x, y) ∈ (image_to_points_sketch img max_size).2 ↔
          threshold (find_edges (img.thumbnail max_size)) <
            ((find_edges (img.thumbnail max_size)).pixel x y : ℚ))) ∧
    (image_to_points_sketch img max_size).2.length =
      ((Finset.range (image_to_points_sketch img max_size).1.1 ×ˢ
          Finset.range (image_to_points_sketch img max_size).1.2).filter fun p =>
        threshold (find_edges (img.thumbnail max_size)) <
          ((find_edges (img.thumbnail max_size)).pixel p.1 p.2 : ℚ)).card ∧
    (image_to_points_sketch img max_size).2.length ≤
      (image_to_points_sketch img max_size).1.1 * (image_to_points_sketch img max_size).1.2 := by
  clear hm
  set e := find_edges (img.thumbnail max_size) with he
  have hr : image_to_points_sketch img max_size = ((e.width, e.height), sketchScan e) := rfl
  rw [hr]
  have hcard : (sketchScan e).length =
      ((Finset.range e.width ×ˢ Finset.range e.height).filter fun p =>
        threshold e < (e.pixel p.1 p.2 : ℚ)).card := by
    rw [← sketchScan_toFinset e, List.toFinset_card_of_nodup (sketchScan_nodup e)]
  refine ⟨?_, hcard, ?_⟩
  · intro x y hx hy
    rw [mem_sketchScan]
    have hiff := pixel_threshold_iff e x y (Nat.zero_lt_of_lt hx) (Nat.zero_lt_of_lt hy)
    constructor
    · rintro ⟨-, -, hp⟩
      exact hiff.1 hp
    · intro hp
      exact ⟨hy, hx, hiff.2 hp⟩
  · rw [hcard]
    calc ((Finset.range e.width ×ˢ Finset.range e.height).filter fun p =>
            threshold e < (e.pixel p.1 p.2 : ℚ)).card
        ≤ (Finset.range e.width ×ˢ Finset.range e.height).card := Finset.card_filter_le _ _
      _ = e.width * e.height := by
          rw [Finset.card_product, Finset.card_range, Finset.card_range]

/-- Witness for C1 at the 2x2 demo image and `maxSize = 160`. -/
theorem sketch_matches_mean_threshold_witness :
    1 ≤ 160 ∧
    ((∀ x y : ℕ,
        x < (image_to_points_sketch demoImg 160).1.1 →
        y < (image_to_points_sketch demoImg 160).1.2 →
        ((x, y) ∈ (image_to_points_sketch demoImg 160).2 ↔
          threshold (find_edges (demoImg.thumbnail 160)) <
            ((find_edges (demoImg.thumbnail 160)).pixel x y : ℚ))) ∧
      (image_to_points_sketch demoImg 160).2.length =
        ((Finset.range (image_to_points_sketch demoImg 160).1.1 ×ˢ
            Finset.range (image_to_points_sketch demoImg 160).1.2).filter fun p =>
          threshold (find_edges (demoImg.thumbnail 160)) <
            ((find_edges (demoImg.thumbnail 160)).pixel p.1 p.2 : ℚ)).card ∧
      (image_to_points_sketch demoImg 160).2.length ≤
        (image_to_points_sketch demoImg 160).1.1 * (image_to_points_sketch demoImg 160).1.2) :=
  ⟨by decide, sketch_matches_mean_threshold demoImg 160 (by decide)⟩

/-- C8: the sketch point list never contains a duplicate coordinate,
and the points appear in row-major scan order (nondecreasing `y`, and
increasing `x` within each `y`). -/
theorem sketch_points_nodup_row_major (img : Img ℕ) (max_size : ℕ) :
    (image_to_points_sketch img max_size).2.Nodup ∧
    (image_to_points_sketch img max_size).2.Pairwise
      (fun p q => p.2 < q.2 ∨ (p.2 = q.2 ∧ p.1 < q.1)) :=
  ⟨sketchScan_nodup _, sketchScan_pairwise _⟩

/-- C10: every coordinate returned by `image_to_points_sketch` lies
within the returned dimensions. -/
theorem sketch_points_in_bounds (img : Img ℕ) (max_size : ℕ) (p : ℕ × ℕ)
    (hp : p ∈ (image_to_points_sketch img max_size).2) :
    p.1 < (image_to_points_sketch img max_size).1.1 ∧
    p.2 < (image_to_points_sketch img max_size).1.2 := by
  obtain ⟨a, b⟩ := p
  have h := mem_sketchScan.1 hp
  exact ⟨h.2.1, h.1⟩

/-- Witness for C10: the demo image yields the in-bounds point `(1, 1)`. -/
theorem sketch_points_in_bounds_witness :
    (1, 1) ∈ (image_to_points_sketch demoImg 160).2 ∧
    ((1, 1).1 < (image_to_points_sketch demoImg 160).1.1 ∧
      (1, 1).2 < (image_to_points_sketch demoImg 160).1.2) :=
  ⟨by decide, sketch_points_in_bounds demoImg 160 (1, 1) (by decide)⟩

/-! ## Color-mode claims -/

/-- C2: for every image and `maxSize ≥ 1`, the color point list has
exactly `width * height` entries, one per pixel of the resized image
carrying that pixel's color, in row-major order (`y` outer, `x`
inner), with pairwise-distinct `(x, y)` pairs covering the whole
grid. -/
theorem color_points_dense_grid (img : Img (ℕ × ℕ × ℕ)) (max_size : ℕ) (hm : 1 ≤ max_size) :
    (image_to_points_color img max_size).2.length =
      (image_to_points_color img max_size).1.1 * (image_to_points_color img max_size).1.2 ∧
    (∀ (x y : ℕ) (c : ℕ × ℕ × ℕ),
        (x, y, c) ∈ (image_to_points_color img max_size).2 ↔
          x < (image_to_points_color img max_size).1.1 ∧
          y < (image_to_points_color img max_size).1.2 ∧
          c = (img.thumbnail max_size).pixel x y) ∧
    ((image_to_points_color img max_size).2.map fun p => (p.1, p.2.1)).Nodup ∧
    (image_to_points_color img max_size).2.Pairwise
      (fun p q => p.2.1 < q.2.1 ∨ (p.2.1 = q.2.1 ∧ p.1 < q.1)) := by
  clear hm
  set r := img.thumbnail max_size with hrdef
  have hr : image_to_points_color img max_size = ((r.width, r.height), colorScan r) := rfl
  rw [hr]
  refine ⟨colorScan_length r, ?_, ?_, colorScan_pairwise r⟩
  · intro x y c
    rw [mem_colorScan]
    exact ⟨fun ⟨h1, h2, h3⟩ => ⟨h2, h1, h3⟩, fun ⟨h1, h2, h3⟩ => ⟨h2, h1, h3⟩⟩
  · have h : ((colorScan r).map fun p => (p.1, p.2.1)).Pairwise (fun a b => a ≠ b) := by
      refine List.Pairwise.map _ ?_ (colorScan_pairwise r)
      intro p q hlex heq
      rw [Prod.mk.injEq] at heq
      rcases hlex with hy | ⟨-, hx⟩ <;> omega
    exact h

/-- Witness for C2 at the 3x3 solid-red image and `maxSize = 80`. -/
theorem color_points_dense_grid_witness :
    1 ≤ 80 ∧
    ((image_to_points_color solidRed 80).2.length =
        (image_to_points_color solidRed 80).1.1 * (image_to_points_color solidRed 80).1.2 ∧
      (∀ (x y : ℕ) (c : ℕ × ℕ × ℕ),
          (x, y, c) ∈ (image_to_points_color solidRed 80).2 ↔
            x < (image_to_points_color solidRed 80).1.1 ∧
            y < (image_to_points_color solidRed 80).1.2 ∧
            c = (solidRed.thumbnail 80).pixel x y) ∧
      ((image_to_points_color solidRed 80).2.map fun p => (p.1, p.2.1)).Nodup ∧
      (image_to_points_color solidRed 80).2.Pairwise
        (fun p q => p.2.1 < q.2.1 ∨ (p.2.1 = q.2.1 ∧ p.1 < q.1))) :=
  ⟨by decide, color_points_dense_grid solidRed 80 (by decide)⟩

/-! ## Emitter claims -/

/-- The sketch emitter always inlines its width and height arguments
into the `WIDTH, HEIGHT = ...` line of the template. -/
lemma sketch_header_isInfix (w h : PyNum) (pts : List (ℕ × ℕ)) :
    ("WIDTH, HEIGHT = " ++ w.str ++ ", " ++ h.str).data <:+:
      (generate_python_code_sketch w h pts).data := by
  refine ⟨("import matplotlib.pyplot as plt\n\n" : String).data,
    ("\nPOINTS = " ++ pyReprList reprSketchPoint pts ++ sketchTail : String).data, ?_⟩
  simp only [generate_python_code_sketch, String.data_append, List.append_assoc]
  rw [← List.append_assoc]
  rfl

/-- The color emitter always inlines its width and height arguments
into the `WIDTH, HEIGHT = ...` line of the template. -/
lemma color_header_isInfix (w h : PyNum) (pts : List (ℕ × ℕ × (ℕ × ℕ × ℕ))) :
    ("WIDTH, HEIGHT = " ++ w.str ++ ", " ++ h.str).data <:+:
      (generate_python_code_color w h pts).data := by
  refine ⟨("import matplotlib.pyplot as plt\n\n" : String).data,
    ("\n# Each point is (x, y, (r, g, b))\nPOINTS = " ++ pyReprList reprColorPoint pts ++
      colorTail : String).data, ?_⟩
  simp only [generate_python_code_color, String.data_append, List.append_assoc]
  rw [← List.append_assoc]
  rfl

/-- C4: both emitters are pure functions of `(width, height, points)`:
two calls with identical arguments produce byte-identical output text,
and no effect (I/O or otherwise) occurs — they are total `String`
functions. -/
theorem emitters_pure_deterministic (w h : PyNum) (pts : List (ℕ × ℕ))
    (cpts : List (ℕ × ℕ × (ℕ × ℕ × ℕ))) :
    generate_python_code_sketch w h pts = generate_python_code_sketch w h pts ∧
    generate_python_code_color w h cpts = generate_python_code_color w h cpts :=
  ⟨rfl, rfl⟩

/-- C5 (counterexample): given the non-finite width `nan`, both
emitters return normally and silently inline `nan` into the output
text — no `InvalidInputError` is raised (no such failure path exists
in the code). -/
theorem emit_nan_silently_formatted :
    ("WIDTH, HEIGHT = nan, 10" : String).data <:+:
      (generate_python_code_sketch PyNum.nan (PyNum.int 10) []).data ∧
    ("WIDTH, HEIGHT = nan, 10" : String).data <:+:
      (generate_python_code_color PyNum.nan (PyNum.int 10) []).data :=
  ⟨by decide, by decide⟩

/-- C5 (amended): the emitters never fail on any numeric input: they
perform no validation, and any value — finite or not — is formatted
straight into the `WIDTH, HEIGHT = ...` line of the complete
template. -/
theorem emitters_never_fail (w h : PyNum) (pts : List (ℕ × ℕ))
    (cpts : List (ℕ × ℕ × (ℕ × ℕ × ℕ))) :
    ("WIDTH, HEIGHT = " ++ w.str ++ ", " ++ h.str).data <:+:
      (generate_python_code_sketch w h pts).data ∧
    ("WIDTH, HEIGHT = " ++ w.str ++ ", " ++ h.str).data <:+:
      (generate_python_code_color w h cpts).data :=
  ⟨sketch_header_isInfix w h pts, color_header_isInfix w h cpts⟩

set_option maxRecDepth 10000 in
/-- C9: emitting a script for `width = 10`, `height = 10`,
`points = []` yields, for both emitters, the complete template text,
containing the literal constants `10, 10` and the empty point
collection `[]` — never a partial template. -/
theorem emit_empty_points_complete :
    ("WIDTH, HEIGHT = 10, 10" : String).data <:+:
      (generate_python_code_sketch (PyNum.int 10) (PyNum.int 10) []).data ∧
    ("POINTS = []" : String).data <:+:
      (generate_python_code_sketch (PyNum.int 10) (PyNum.int 10) []).data ∧
    ("WIDTH, HEIGHT = 10, 10" : String).data <:+:
      (generate_python_code_color (PyNum.int 10) (PyNum.int 10) []).data ∧
    ("POINTS = []" : String).data <:+:
      (generate_python_code_color (PyNum.int 10) (PyNum.int 10) []).data ∧
    generate_python_code_sketch (PyNum.int 10) (PyNum.int 10) [] =
      "import matplotlib.pyplot as plt\n\nWIDTH, HEIGHT = 10, 10\nPOINTS = []" ++ sketchTail ∧
    generate_python_code_color (PyNum.int 10) (PyNum.int 10) [] =
      "import matplotlib.pyplot as plt\n\nWIDTH, HEIGHT = 10, 10\n# Each point is (x, y, (r, g, b))\nPOINTS = []" ++
        colorTail :=
  ⟨by decide, by decide, by decide, by decide, by rfl, by rfl⟩

/-! ## CLI claim -/

/-- C7: in color mode, `main` silently halves the default size: a
`--max-size` equal to the sketch default 160 becomes 80, any other
value is passed through; sketch mode always passes `--max-size`
through unchanged. -/
theorem cli_color_halves_default_size :
    effective_max_size Mode.color default_max_size = 80 ∧
    (∀ s : ℕ, s ≠ 160 → effective_max_size Mode.color s = s) ∧
    (∀ s : ℕ, effective_max_size Mode.sketch s = s) := by
  refine ⟨rfl, fun s hs => ?_, fun s => rfl⟩
  simp [effective_max_size, hs]

/-- Witness for C7 at the non-default size 100. -/
theorem cli_color_halves_default_size_witness :
    (100 : ℕ) ≠ 160 ∧ effective_max_size Mode.color 100 = 100 :=
  ⟨by decide, (cli_color_halves_default_size.2.1) 100 (by decide)⟩

/-! ## Resize dimension claims -/

/-- Whether the library rounds `v` down or up, the clamped result
`max 1 (round v)` is within distance 1 of `v` (for positive `v`). -/
lemma round_clamp_near (v : ℚ) (m : ℤ) (hv : 0 < v) (hm : m = ⌊v⌋ ∨ m = ⌈v⌉) :
    |((max 1 m.toNat : ℕ) : ℚ) - v| < 1 := by
  have hfl : (0 : ℤ) ≤ ⌊v⌋ := Int.floor_nonneg.2 hv.le
  rcases le_or_lt 1 ⌊v⌋ with h1 | h1
  · have hm1 : 1 ≤ m := by
      rcases hm with rfl | rfl
      · exact h1
      · exact le_trans h1 (Int.floor_le_ceil v)
    have htn : ((max 1 m.toNat : ℕ) : ℚ) = (m : ℚ) := by
      have hmax : max 1 m.toNat = m.toNat := max_eq_right (by omega)
      rw [hmax]
      exact_mod_cast congrArg (Int.cast : ℤ → ℚ) (Int.toNat_of_nonneg (by omega))
    rw [htn, abs_sub_lt_iff]
    rcases hm with rfl | rfl
    · have hle := Int.floor_le v
      have hgt := Int.sub_one_lt_floor v
      constructor <;> linarith
    · have hle := Int.le_ceil v
      have hlt := Int.ceil_lt_add_one v
      constructor <;> linarith
  · have hfl0 : ⌊v⌋ = 0 := by omega
    have hv1 : v < 1 := by
      have := Int.lt_floor_add_one v
      rw [hfl0] at this
      simpa using this
    have hc1 : ⌈v⌉ = 1 := by
      have hcle : ⌈v⌉ ≤ 1 := by exact_mod_cast Int.ceil_le.2 hv1.le
      have hcpos : 0 < ⌈v⌉ := Int.ceil_pos.2 hv
      omega
    have hmax1 : max 1 m.toNat = 1 := by
      rcases hm with rfl | rfl
      · rw [hfl0]; rfl
      · rw [hc1]; rfl
    rw [hmax1, abs_sub_lt_iff]
    constructor <;> [skip; skip] <;> push_cast <;> linarith

/-- The resized dimensions never upscale, never exceed the bound, and
keep the aspect ratio within one unit of rounding:
`|w' * H - h' * W| < max W H`. -/
lemma thumbnailSize_spec (W H m : ℕ) (hW : 1 ≤ W) (hH : 1 ≤ H) (hm : 1 ≤ m) :
    (thumbnailSize W H m).1 ≤ W ∧ (thumbnailSize W H m).2 ≤ H ∧
    (thumbnailSize W H m).1 ≤ m ∧ (thumbnailSize W H m).2 ≤ m ∧
    |((thumbnailSize W H m).1 : ℚ) * H - ((thumbnailSize W H m).2 : ℚ) * W| <
      ((max W H : ℕ) : ℚ) := by
  have hH0 : (0 : ℚ) < H := by exact_mod_cast hH
  have hW0 : (0 : ℚ) < W := by exact_mod_cast hW
  have hm0 : (0 : ℚ) < m := by exact_mod_cast hm
  rw [thumbnailSize]
  split_ifs with h1 h2
  · refine ⟨le_rfl, le_rfl, h1.1, h1.2, ?_⟩
    have hmaxpos : 0 < max W H := lt_of_lt_of_le hW (le_max_left W H)
    simp only [mul_comm, sub_self, abs_zero]
    exact_mod_cast hmaxpos
  · -- downsizing with H the longer side: new size (thumbWidth, m)
    have hmH : m < H := by omega
    set v : ℚ := (m * W : ℚ) / H with hvdef
    have hv0 : 0 < v := div_pos (by positivity) hH0
    set n : ℤ := if v - ⌊v⌋ ≤ (⌈v⌉ : ℚ) - v then ⌊v⌋ else ⌈v⌉ with hndef
    have hthumb : thumbWidth W H m = max 1 n.toNat := rfl
    have habs : |((max 1 n.toNat : ℕ) : ℚ) - v| < 1 := by
      refine round_clamp_near v n hv0 ?_
      rw [hndef]
      split
      · exact Or.inl rfl
      · exact Or.inr rfl
    set r : ℕ := max 1 n.toNat with hrdef
    have hvW : v < W := by
      rw [hvdef, div_lt_iff₀ hH0]
      have hmq : (m : ℚ) < H := by exact_mod_cast hmH
      nlinarith
    have hvm : v ≤ m := by
      rw [hvdef, div_le_iff₀ hH0]
      have hWq : (W : ℚ) ≤ H := by exact_mod_cast h2
      nlinarith
    have hr1 : (r : ℚ) < v + 1 := by
      have := (abs_sub_lt_iff.1 habs).1
      linarith
    have hrW : r ≤ W := by
      have hq : (r : ℚ) < (W : ℚ) + 1 := by linarith
      have hn : r < W + 1 := by exact_mod_cast hq
      omega
    have hrm : r ≤ m := by
      have hq : (r : ℚ) < (m : ℚ) + 1 := by linarith
      have hn : r < m + 1 := by exact_mod_cast hq
      omega
    have hvH : v * H = (m : ℚ) * W := by
      rw [hvdef]
      field_simp
    refine ⟨by rw [hthumb]; exact hrW, le_of_lt hmH, by rw [hthumb]; exact hrm, le_rfl, ?_⟩
    dsimp only
    have hrw : |(r : ℚ) * H - (m : ℚ) * W| = |(r : ℚ) - v| * H := by
      rw [← hvH, ← sub_mul, abs_mul, abs_of_pos hH0]
    rw [hthumb, hrw]
    have hmax : (H : ℚ) ≤ ((max W H : ℕ) : ℚ) := by exact_mod_cast le_max_right W H
    calc |(r : ℚ) - v| * H < 1 * H := mul_lt_mul_of_pos_right habs hH0
      _ = (H : ℚ) := one_mul _
      _ ≤ _ := hmax
  · -- downsizing with W the longer side: new size (m, thumbHeight)
    have hmW : m < W := by omega
    have hHW : H ≤ W := by omega
    set v : ℚ := (m * H : ℚ) / W with hvdef
    have hv0 : 0 < v := div_pos (by positivity) hW0
    set key : ℤ → ℚ := fun k => if k = 0 then 0 else |(W : ℚ) / H - m / k| with hkey
    set n : ℤ := if key ⌊v⌋ ≤ key ⌈v⌉ then ⌊v⌋ else ⌈v⌉ with hndef
    have hthumb : thumbHeight W H m = max 1 n.toNat := rfl
    have habs : |((max 1 n.toNat : ℕ) : ℚ) - v| < 1 := by
      refine round_clamp_near v n hv0 ?_
      rw [hndef]
      split
      · exact Or.inl rfl
      · exact Or.inr rfl
    set r : ℕ := max 1 n.toNat with hrdef
    have hvH : v < H := by
      rw [hvdef, div_lt_iff₀ hW0]
      have hmq : (m : ℚ) < W := by exact_mod_cast hmW
      have hHq : (0 : ℚ) < H := hH0
      nlinarith
    have hvm : v ≤ m := by
      rw [hvdef, div_le_iff₀ hW0]
      have hHq : (H : ℚ) ≤ W := by exact_mod_cast hHW
      nlinarith
    have hr1 : (r : ℚ) < v + 1 := by
      have := (abs_sub_lt_iff.1 habs).1
      linarith
    have hrH : r ≤ H := by
      have hq : (r : ℚ) < (H : ℚ) + 1 := by linarith
      have hn : r < H + 1 := by exact_mod_cast hq
      omega
    have hrm : r ≤ m := by
      have hq : (r : ℚ) < (m : ℚ) + 1 := by linarith
      have hn : r < m + 1 := by exact_mod_cast hq
      omega
    have hvW : v * W = (m : ℚ) * H := by
      rw [hvdef]
      field_simp
    refine ⟨le_of_lt hmW, by rw [hthumb]; exact hrH, le_rfl, by rw [hthumb]; exact hrm, ?_⟩
    dsimp only
    have hrw : |(m : ℚ) * H - (r : ℚ) * W| = |(r : ℚ) - v| * W := by
      rw [← hvW, ← abs_neg, neg_sub, ← sub_mul, abs_mul, abs_of_pos hW0]
    rw [hthumb, hrw]
    have hmax : (W : ℚ) ≤ ((max W H : ℕ) : ℚ) := by exact_mod_cast le_max_left W H
    calc |(r : ℚ) - v| * W < 1 * W := mul_lt_mul_of_pos_right habs hW0
      _ = (W : ℚ) := one_mul _
      _ ≤ _ := hmax

/-- The dimensions of a thumbnailed image are `thumbnailSize` of the
original dimensions. -/
lemma thumbnail_dims {α : Type} (img : Img α) (m : ℕ) :
    (img.thumbnail m).width = (thumbnailSize img.width img.height m).1 ∧
    (img.thumbnail m).height = (thumbnailSize img.width img.height m).2 := by
  rw [Img.thumbnail]
  split_ifs with h
  · rw [thumbnailSize, if_pos h]
    exact ⟨rfl, rfl⟩
  · exact ⟨rfl, rfl⟩

/-- Bundled bounds for the thumbnailed image of any pixel type. -/
lemma thumbnail_bounds {α : Type} (img : Img α) (m : ℕ)
    (hw : 1 ≤ img.width) (hh : 1 ≤ img.height) (hm : 1 ≤ m) :
    (img.thumbnail m).width ≤ img.width ∧ (img.thumbnail m).height ≤ img.height ∧
    max (img.thumbnail m).width (img.thumbnail m).height ≤ m ∧
    |((img.thumbnail m).width : ℚ) * img.height -
        ((img.thumbnail m).height : ℚ) * img.width| <
      ((max img.width img.height : ℕ) : ℚ) := by
  obtain ⟨h1, h2, h3, h4, h5⟩ := thumbnailSize_spec img.width img.height m hw hh hm
  obtain ⟨e1, e2⟩ := thumbnail_dims img m
  rw [e1, e2]
  exact ⟨h1, h2, max_le h3 h4, h5⟩

/-- C3: in both modes the returned `(width, height)` are the
dimensions of the resized image actually sampled, with
`max width height ≤ maxSize`, no upscaling past the original
dimensions, and the aspect ratio preserved within rounding
(`|w * H - h * W| < max W H`). -/
theorem resize_dims_bounded (g : Img ℕ) (c : Img (ℕ × ℕ × ℕ)) (max_size : ℕ)
    (hgw : 1 ≤ g.width) (hgh : 1 ≤ g.height)
    (hcw : 1 ≤ c.width) (hch : 1 ≤ c.height) (hm : 1 ≤ max_size) :
    ((image_to_points_sketch g max_size).1 =
        ((g.thumbnail max_size).width, (g.thumbnail max_size).height) ∧
      (image_to_points_sketch g max_size).2 =
        sketchScan (find_edges (g.thumbnail max_size)) ∧
      max (image_to_points_sketch g max_size).1.1
          (image_to_points_sketch g max_size).1.2 ≤ max_size ∧
      (image_to_points_sketch g max_size).1.1 ≤ g.width ∧
      (image_to_points_sketch g max_size).1.2 ≤ g.height ∧
      |((image_to_points_sketch g max_size).1.1 : ℚ) * g.height -
          ((image_to_points_sketch g max_size).1.2 : ℚ) * g.width| <
        ((max g.width g.height : ℕ) : ℚ)) ∧
    ((image_to_points_color c max_size).1 =
        ((c.thumbnail max_size).width, (c.thumbnail max_size).height) ∧
      (image_to_points_color c max_size).2 = colorScan (c.thumbnail max_size) ∧
      max (image_to_points_color c max_size).1.1
          (image_to_points_color c max_size).1.2 ≤ max_size ∧
      (image_to_points_color c max_size).1.1 ≤ c.width ∧
      (image_to_points_color c max_size).1.2 ≤ c.height ∧
      |((image_to_points_color c max_size).1.1 : ℚ) * c.height -
          ((image_to_points_color c max_size).1.2 : ℚ) * c.width| <
        ((max c.width c.height : ℕ) : ℚ)) := by
  obtain ⟨g1, g2, g3, g4⟩ := thumbnail_bounds g max_size hgw hgh hm
  obtain ⟨c1, c2, c3, c4⟩ := thumbnail_bounds c max_size hcw hch hm
  exact ⟨⟨rfl, rfl, g3, g1, g2, g4⟩, ⟨rfl, rfl, c3, c1, c2, c4⟩⟩

/-- Witness for C3 at the 2x2 demo image and the 3x3 solid-red image
with `maxSize = 160`. -/
theorem resize_dims_bounded_witness :
    (1 ≤ demoImg.width ∧ 1 ≤ demoImg.height ∧ 1 ≤ solidRed.width ∧
      1 ≤ solidRed.height ∧ 1 ≤ 160) ∧
    (((image_to_points_sketch demoImg 160).1 =
        ((demoImg.thumbnail 160).width, (demoImg.thumbnail 160).height) ∧
      (image_to_points_sketch demoImg 160).2 =
        sketchScan (find_edges (demoImg.thumbnail 160)) ∧
      max (image_to_points_sketch demoImg 160).1.1
          (image_to_points_sketch demoImg 160).1.2 ≤ 160 ∧
      (image_to_points_sketch demoImg 160).1.1 ≤ demoImg.width ∧
      (image_to_points_sketch demoImg 160).1.2 ≤ demoImg.height ∧
      |((image_to_points_sketch demoImg 160).1.1 : ℚ) * demoImg.height -
          ((image_to_points_sketch demoImg 160).1.2 : ℚ) * demoImg.width| <
        ((max demoImg.width demoImg.height : ℕ) : ℚ)) ∧
    ((image_to_points_color solidRed 160).1 =
        ((solidRed.thumbnail 160).width, (solidRed.thumbnail 160).height) ∧
      (image_to_points_color solidRed 160).2 = colorScan (solidRed.thumbnail 160) ∧
      max (image_to_points_color solidRed 160).1.1
          (image_to_points_color solidRed 160).1.2 ≤ 160 ∧
      (image_to_points_color solidRed 160).1.1 ≤ solidRed.width ∧
      (image_to_points_color solidRed 160).1.2 ≤ solidRed.height ∧
      |((image_to_points_color solidRed 160).1.1 : ℚ) * solidRed.height -
          ((image_to_points_color solidRed 160).1.2 : ℚ) * solidRed.width| <
        ((max solidRed.width solidRed.height : ℕ) : ℚ))) :=
  ⟨⟨by decide, by decide, by decide, by decide, by decide⟩,
    resize_dims_bounded demoImg solidRed 160 (by decide) (by decide) (by decide)
      (by decide) (by decide)⟩

/-! ## Uniform-image claims -/

/-- Resizing a uniform image yields a uniform image. -/
lemma thumbnail_uniform_pixel (w h c m x y : ℕ) :
    ((uniformImg w h c).thumbnail m).pixel x y = c := by
  rw [Img.thumbnail]
  split_ifs <;> rfl

/-- The edge filter on a constant grid: interior pixels become 0
(`8c - 8c`), border pixels keep the value `c`. -/
lemma find_edges_pixel_const (g : Img ℕ) (c : ℕ) (hg : ∀ x y, g.pixel x y = c) (x y : ℕ) :
    (find_edges g).pixel x y =
      if 1 ≤ x ∧ x + 1 < g.width ∧ 1 ≤ y ∧ y + 1 < g.height then 0 else c := by
  rw [find_edges]
  dsimp only
  split_ifs with h
  · simp only [hg]
    have hz : 8 * (c : ℤ) - ((c : ℤ) + c + c + c + c + c + c + c) = 0 := by ring
    rw [hz]
    rfl
  · exact hg x y

/-- The pixel sum of a constant grid. -/
lemma pixSum_const (g : Img ℕ) (u : ℕ)
    (hg : ∀ x y, x < g.width → y < g.height → g.pixel x y = u) :
    pixSum g = u * (g.width * g.height) := by
  rw [pixSum]
  have hrow : ∀ y ∈ Finset.range g.height,
      ∑ x ∈ Finset.range g.width, g.pixel x y = g.width * u := by
    intro y hy
    rw [Finset.sum_congr rfl fun x hx =>
      hg x y (Finset.mem_range.1 hx) (Finset.mem_range.1 hy)]
    rw [Finset.sum_const, Finset.card_range, smul_eq_mul]
  rw [Finset.sum_congr rfl hrow, Finset.sum_const, Finset.card_range, smul_eq_mul]
  ring

/-- If no pixel is strictly above the mean, the scan is empty. -/
lemma sketchScan_eq_nil (g : Img ℕ)
    (hno : ∀ x y, x < g.width → y < g.height →
      ¬ pixSum g < g.pixel x y * (g.width * g.height)) :
    sketchScan g = [] := by
  refine List.eq_nil_iff_forall_not_mem.2 ?_
  rintro ⟨x, y⟩ hp
  obtain ⟨hy, hx, hlt⟩ := mem_sketchScan.1 hp
  exact hno x y hx hy hlt

/-- The pixel sum as a single sum over the coordinate grid. -/
lemma pixSum_eq_sum_product (g : Img ℕ) :
    pixSum g = ∑ p ∈ Finset.range g.height ×ˢ Finset.range g.width, g.pixel p.2 p.1 := by
  rw [pixSum, Finset.sum_product]

/-- C6 (amended): `image_to_points_sketch` on a uniform image returns
the empty list when the uniform value is 0 or when either resized
dimension is below 3 (the filter then copies every pixel, the mean
equals every pixel's value, and the strict comparison excludes all
pixels); but for a positive uniform value with both resized dimensions
at least 3 the filter keeps the border pixels at their original value
while zeroing the interior, so the returned list contains the border
pixel `(0, 0)` and is not empty. -/
theorem uniform_image_sketch_points (w h c maxSize : ℕ) (hm : 1 ≤ maxSize) :
    (c = 0 → (image_to_points_sketch (uniformImg w h c) maxSize).2 = []) ∧
    (((uniformImg w h c).thumbnail maxSize).width < 3 ∨
        ((uniformImg w h c).thumbnail maxSize).height < 3 →
      (image_to_points_sketch (uniformImg w h c) maxSize).2 = []) ∧
    (0 < c → 3 ≤ ((uniformImg w h c).thumbnail maxSize).width →
        3 ≤ ((uniformImg w h c).thumbnail maxSize).height →
      (0, 0) ∈ (image_to_points_sketch (uniformImg w h c) maxSize).2 ∧
      (image_to_points_sketch (uniformImg w h c) maxSize).2 ≠ []) := by
  clear hm
  set r := (uniformImg w h c).thumbnail maxSize with hrdef
  set e := find_edges r with hedef
  have hres : (image_to_points_sketch (uniformImg w h c) maxSize).2 = sketchScan e := rfl
  have hW : e.width = r.width := rfl
  have hH : e.height = r.height := rfl
  have hpix : ∀ x y : ℕ, e.pixel x y =
      if 1 ≤ x ∧ x + 1 < r.width ∧ 1 ≤ y ∧ y + 1 < r.height then 0 else c :=
    find_edges_pixel_const r c (fun x y => thumbnail_uniform_pixel w h c maxSize x y)
  refine ⟨?_, ?_, ?_⟩
  · rintro rfl
    rw [hres]
    refine sketchScan_eq_nil e fun x y hx hy => ?_
    have h0 : e.pixel x y = 0 := by
      rw [hpix]
      split_ifs <;> rfl
    have hsum : pixSum e = 0 * (e.width * e.height) :=
      pixSum_const e 0 fun x y _ _ => by rw [hpix]; split_ifs <;> rfl
    rw [hsum, h0]
    exact lt_irrefl _
  · intro hsmall
    rw [hres]
    have hconst : ∀ x y : ℕ, e.pixel x y = c := by
      intro x y
      rw [hpix]
      split_ifs with hin
      · exfalso
        rcases hsmall with hs | hs
        · rw [hW] at *
          omega
        · rw [hH] at *
          omega
      · rfl
    refine sketchScan_eq_nil e fun x y hx hy => ?_
    rw [pixSum_const e c fun x y _ _ => hconst x y, hconst]
    exact lt_irrefl _
  · intro hc hw3 hh3
    rw [hres]
    have hborder : e.pixel 0 0 = c := by
      rw [hpix]
      simp
    have hlt : pixSum e < c * (e.width * e.height) := by
      rw [pixSum_eq_sum_product]
      have hcard : ∀ p : ℕ × ℕ, p ∈ Finset.range e.height ×ˢ Finset.range e.width →
          e.pixel p.2 p.1 ≤ c := by
        intro p _
        rw [hpix]
        split_ifs
        · exact Nat.zero_le c
        · exact le_rfl
      have hmem : ((1 : ℕ), (1 : ℕ)) ∈ Finset.range e.height ×ˢ Finset.range e.width := by
        rw [Finset.mem_product, Finset.mem_range, Finset.mem_range]
        constructor <;> omega
      have hstrict : e.pixel 1 1 < c := by
        rw [hpix]
        have hin : 1 ≤ 1 ∧ 1 + 1 < r.width ∧ 1 ≤ 1 ∧ 1 + 1 < r.height := by
          refine ⟨le_rfl, ?_, le_rfl, ?_⟩ <;> omega
        rw [if_pos hin]
        exact hc
      calc ∑ p ∈ Finset.range e.height ×ˢ Finset.range e.width, e.pixel p.2 p.1
          < ∑ _p ∈ Finset.range e.height ×ˢ Finset.range e.width, c :=
            Finset.sum_lt_sum hcard ⟨(1, 1), hmem, hstrict⟩
        _ = c * (e.width * e.height) := by
            rw [Finset.sum_const, Finset.card_product, Finset.card_range,
              Finset.card_range, smul_eq_mul]
            ring
    have hmem00 : (0, 0) ∈ sketchScan e := by
      rw [mem_sketchScan, hborder]
      exact ⟨by omega, by omega, hlt⟩
    exact ⟨hmem00, List.ne_nil_of_mem hmem00⟩

/-- Witness for the amended C6 at the uniform 3x3 image of value 128
and `maxSize = 160`. -/
theorem uniform_image_sketch_points_witness :
    1 ≤ 160 ∧ 0 < 128 ∧ 3 ≤ ((uniformImg 3 3 128).thumbnail 160).width ∧
    3 ≤ ((uniformImg 3 3 128).thumbnail 160).height ∧
    ((0, 0) ∈ (image_to_points_sketch (uniformImg 3 3 128) 160).2 ∧
      (image_to_points_sketch (uniformImg 3 3 128) 160).2 ≠ []) :=
  ⟨by decide, by decide, by decide, by decide,
    (uniform_image_sketch_points 3 3 128 160 (by decide)).2.2 (by decide) (by decide)
      (by decide)⟩

/-- C6 (counterexample): the uniform 3x3 image of value 128 with
`maxSize = 160` does NOT yield an empty point list — the edge filter
keeps the original value on the border, the mean `1024 / 9` lies
strictly below it, and exactly the eight border pixels are returned. -/
theorem uniform_image_sketch_points_counterexample :
    (image_to_points_sketch (uniformImg 3 3 128) 160).2 =
      [(0, 0), (1, 0), (2, 0), (0, 1), (2, 1), (0, 2), (1, 2), (2, 2)] ∧
    (image_to_points_sketch (uniformImg 3 3 128) 160).2 ≠ [] :=
  ⟨by decide, by decide⟩

end ImageConverter
